import Mathlib

/-!
Verification development for the document-chunking core of the
elasticsearch-labs repository: the fixed-size overlapping text chunker
(`CharacterTextSplitter`, configured via `chunk_size` / `chunk_overlap`),
the metadata propagator (`create_documents`), the notebook batch-building
loop over `workplace_docs`, and the `Summary` frontend component.

The chunking algorithm itself lives in the external LangChain library; the
repository contains only its call sites, so the chunker and the metadata
propagator are modelled from the specification (fixed-size sliding window
with overlap).  The batch loop and the `Summary` component are embedded
directly from the repository sources.
-/

/-- Modelled from the spec: `ConfigurationError`, raised for an invalid
`chunk_size` / `chunk_overlap` combination (`chunk_overlap ≥ chunk_size`). -/
inductive ChunkError where
  | configurationError
deriving DecidableEq

/-- Modelled from the spec: the core sliding-window loop of the chunker
(the `CharacterTextSplitter` implementation is external to the repository;
only its call sites appear in the notebooks).  Starting at offset 0, each
chunk takes at most `size` units, and the next chunk begins
`size - ov` units later, i.e. `ov` units before the previous chunk ends.
The final chunk is the one that reaches the end of the text.  The loop is
written structurally on a fuel argument; with a valid configuration
(`ov < size`) every step strictly shortens the text, so fuel equal to the
text's length is always sufficient. -/
def chunkGo (size ov : Nat) : Nat → List Char → List (List Char)
  | 0, _ => []
  | fuel + 1, s =>
    if s.length ≤ size then [s]
    else s.take size :: chunkGo size ov fuel (s.drop (size - ov))

/-- Modelled from the spec: chunk one text.  Empty text yields an empty
sequence of chunks; otherwise the sliding-window loop `chunkGo` runs with
sufficient fuel. -/
def chunkText (size ov : Nat) (s : List Char) : List (List Char) :=
  if s.length = 0 then [] else chunkGo size ov s.length s

/-- Modelled from the spec: the chunker entry point
(`CharacterTextSplitter.split_text`).  Validates the configuration before
any processing: `chunk_overlap ≥ chunk_size` fails with
`ConfigurationError`, surfaced to the caller immediately. -/
def splitText (size ov : Nat) (s : List Char) : Except ChunkError (List (List Char)) :=
  if size ≤ ov then Except.error ChunkError.configurationError
  else Except.ok (chunkText size ov s)

/-- A source document: free-form text content plus string-valued metadata
fields (spec data model, observed in the notebooks as
`{name, summary, ...}` mappings). -/
structure Document where
  content : List Char
  metadata : List (String × String)
deriving DecidableEq

/-- A passage derived from exactly one document: a chunk of its content
carrying a copy of that document's metadata (spec data model). -/
structure Passage where
  text : List Char
  metadata : List (String × String)
deriving DecidableEq

/-- Modelled from the spec: the metadata propagator
(`CharacterTextSplitter.create_documents(content, metadatas=metadata)`,
external to the repository).  After configuration validation it chunks
each document's content in document order and attaches the originating
document's metadata to every chunk. -/
def createDocuments (size ov : Nat) (docs : List Document) : Except ChunkError (List Passage) :=
  if size ≤ ov then Except.error ChunkError.configurationError
  else Except.ok (docs.flatMap fun d =>
    (chunkText size ov d.content).map fun c => { text := c, metadata := d.metadata })

/-- Concatenation of a chunk sequence with overlaps removed: the first
chunk is kept whole and each later chunk contributes everything after its
leading `ov` units (spec §4.1 output contract). -/
def reconstruct (ov : Nat) : List (List Char) → List Char
  | [] => []
  | c :: cs => c ++ (cs.map (fun x => x.drop ov)).flatten

/-- A raw dataset record as deserialized from `workplace-docs.json`: a
string-keyed mapping of fields (embedded from the notebook sources). -/
structure RawDoc where
  fields : List (String × String)
deriving DecidableEq

/-- Dictionary access `doc[key]` on a raw record: `none` models a
`KeyError` for a missing field. -/
def getField (d : RawDoc) (k : String) : Option String :=
  d.fields.lookup k

/-- The error raised by dictionary access on a missing field in the
notebook loop. -/
inductive BatchError where
  | keyError
deriving DecidableEq

/-- The notebook batch-building loop (embedded from the source):
`for doc in workplace_docs: content.append(doc["content"]);
metadata.append({"name": doc["name"], "summary": doc["summary"]})`.
A missing field raises `KeyError`, which propagates and aborts the whole
loop; there is no skipping logic. -/
def buildBatch : List RawDoc → Except BatchError (List Document)
  | [] => Except.ok []
  | d :: ds =>
    match getField d "content", getField d "name", getField d "summary" with
    | some c, some n, some sm =>
      match buildBatch ds with
      | Except.ok rest =>
        Except.ok ({ content := c.toList, metadata := [("name", n), ("summary", sm)] } :: rest)
      | Except.error e => Except.error e
    | _, _, _ => Except.error BatchError.keyError

/-- Props of the `Summary` frontend component (embedded from
`summary.tsx`): `isLoading?: boolean` (optional) and
`text: string | undefined`. -/
structure SummaryProps where
  isLoading : Option Bool
  text : Option String
deriving DecidableEq

/-- JavaScript truthiness of an optional boolean: `undefined` and `false`
are falsy. -/
def truthyBool : Option Bool → Bool
  | some b => b
  | none => false

/-- JavaScript truthiness of an optional string: `undefined` and the empty
string are falsy. -/
def truthyStr : Option String → Bool
  | some s => decide (s ≠ "")
  | none => false

/-- The render-tree nodes of the `Summary` component that the claims are
about. -/
inductive SummaryNode where
  | header
  | loader
  | textBlock (s : String)
deriving DecidableEq

/-- The `Summary` component's render function (embedded from
`summary.tsx`): a header, then `isLoading && !text && <Loader />`, then
`text && <div …>{text}</div>`. -/
def renderSummary (p : SummaryProps) : List SummaryNode :=
  [SummaryNode.header]
    ++ (if truthyBool p.isLoading && !(truthyStr p.text) then [SummaryNode.loader] else [])
    ++ (if truthyStr p.text then [SummaryNode.textBlock (p.text.getD "")] else [])

/-- With a valid configuration and fuel at least the text's length, the
sliding-window loop on a non-empty text always produces a first chunk equal
to `s.take size`. -/
theorem chunkGo_cons (size ov : Nat) :
    ∀ fuel s, 0 < s.length → s.length ≤ fuel →
      ∃ t, chunkGo size ov fuel s = s.take size :: t := by
  intro fuel
  induction fuel with
  | zero => intro s hs hf; omega
  | succ n _ =>
    intro s _ _
    by_cases h : s.length ≤ size
    · exact ⟨[], by simp [chunkGo, h, List.take_of_length_le h]⟩
    · exact ⟨chunkGo size ov n (s.drop (size - ov)), by simp [chunkGo, h]⟩

/-- Every chunk produced by the sliding-window loop has length at most
`size`. -/
theorem chunkGo_length_le (size ov : Nat) (hov : ov < size) :
    ∀ fuel s, s.length ≤ fuel → ∀ c ∈ chunkGo size ov fuel s, c.length ≤ size := by
  intro fuel
  induction fuel with
  | zero => intro s _ c hc; simp [chunkGo] at hc
  | succ n ih =>
    intro s hf c hc
    by_cases h : s.length ≤ size
    · simp [chunkGo, h] at hc; subst hc; exact h
    · simp [chunkGo, h] at hc
      rcases hc with hc | hc
      · subst hc; simp [List.length_take]
      · exact ih _ (by simp; omega) c hc

/-- Every chunk produced by the sliding-window loop is a contiguous
substring of the input text. -/
theorem chunkGo_substring (size ov : Nat) :
    ∀ fuel s, ∀ c ∈ chunkGo size ov fuel s, c.IsInfix s := by
  intro fuel
  induction fuel with
  | zero => intro s c hc; simp [chunkGo] at hc
  | succ n ih =>
    intro s c hc
    by_cases h : s.length ≤ size
    · simp [chunkGo, h] at hc; subst hc; exact List.infix_refl _
    · simp [chunkGo, h] at hc
      rcases hc with hc | hc
      · subst hc; exact (List.take_prefix size s).isInfix
      · exact (ih _ c hc).trans (List.drop_suffix _ s).isInfix

/-- Gluing lemma: concatenating the chunks with every chunk after the
first stripped of its leading `ov` units reconstructs the input text. -/
theorem chunkGo_reconstruct (size ov : Nat) (hov : ov < size) :
    ∀ fuel s, 0 < s.length → s.length ≤ fuel →
      reconstruct ov (chunkGo size ov fuel s) = s := by
  intro fuel
  induction fuel with
  | zero => intro s hs hf; omega
  | succ n ih =>
    intro s hs hf
    by_cases h : s.length ≤ size
    · simp [chunkGo, h, reconstruct]
    · have hs2 : 0 < (s.drop (size - ov)).length := by simp; omega
      have hf2 : (s.drop (size - ov)).length ≤ n := by simp; omega
      obtain ⟨t, ht⟩ := chunkGo_cons size ov n (s.drop (size - ov)) hs2 hf2
      have ihr := ih (s.drop (size - ov)) hs2 hf2
      rw [ht] at ihr
      simp only [reconstruct] at ihr
      rw [show chunkGo size ov (n + 1) s
            = s.take size :: chunkGo size ov n (s.drop (size - ov)) from by
          simp [chunkGo, h]]
      rw [ht]
      simp only [reconstruct, List.map_cons, List.flatten_cons]
      have hA : s.take size = s.take (size - ov) ++ (s.drop (size - ov)).take ov := by
        have h2 := List.take_add s (size - ov) ov
        rwa [Nat.sub_add_cancel (Nat.le_of_lt hov)] at h2
      have hB : ((s.drop (size - ov)).take size).take ov = (s.drop (size - ov)).take ov := by
        rw [List.take_take, Nat.min_eq_left (Nat.le_of_lt hov)]
      rw [hA]
      simp only [List.append_assoc]
      rw [← hB, ← List.append_assoc (((s.drop (size - ov)).take size).take ov),
        List.take_append_drop, ihr, List.take_append_drop]

/-- Unfolding lemma: on a non-empty text, `chunkText` runs the loop with
fuel equal to the text's length. -/
theorem chunkText_eq (size ov : Nat) (s : List Char) (hs : s ≠ []) :
    chunkText size ov s = chunkGo size ov s.length s := by
  have h0 : ¬ s.length = 0 := fun h => hs (List.length_eq_zero.mp h)
  simp [chunkText, h0]

/-- The chunk at index `i` starts at offset `i * (size - ov)`: it is the
`size`-unit window of the text at that offset. -/
theorem chunkGo_getElem (size ov : Nat) (hov : ov < size) :
    ∀ fuel s, 0 < s.length → s.length ≤ fuel →
      ∀ i, i < (chunkGo size ov fuel s).length →
        (chunkGo size ov fuel s)[i]? = some ((s.drop (i * (size - ov))).take size) := by
  intro fuel
  induction fuel with
  | zero => intro s hs hf; omega
  | succ n ih =>
    intro s hs hf i hi
    by_cases h : s.length ≤ size
    · rw [show chunkGo size ov (n + 1) s = [s] from by simp [chunkGo, h]] at hi ⊢
      have h0 : i = 0 := Nat.lt_one_iff.mp (by simpa using hi)
      subst h0
      simp [List.take_of_length_le h]
    · rw [show chunkGo size ov (n + 1) s
            = s.take size :: chunkGo size ov n (s.drop (size - ov)) from by
          simp [chunkGo, h]] at hi ⊢
      cases i with
      | zero => simp
      | succ j =>
        have hs2 : 0 < (s.drop (size - ov)).length := by simp; omega
        have hf2 : (s.drop (size - ov)).length ≤ n := by simp; omega
        have hj : j < (chunkGo size ov n (s.drop (size - ov))).length := by
          simpa using hi
        rw [List.getElem?_cons_succ, ih _ hs2 hf2 j hj, List.drop_drop]
        have harith : size - ov + j * (size - ov) = (j + 1) * (size - ov) := by ring
        rw [harith]

/-- Every chunk except possibly the final one has length exactly `size`. -/
theorem chunkGo_full (size ov : Nat) (hov : ov < size) :
    ∀ fuel s, s.length ≤ fuel →
      ∀ i c, i + 1 < (chunkGo size ov fuel s).length →
        (chunkGo size ov fuel s)[i]? = some c → c.length = size := by
  intro fuel
  induction fuel with
  | zero => intro s _ i c hi; simp [chunkGo] at hi
  | succ n ih =>
    intro s hf i c hi hc
    by_cases h : s.length ≤ size
    · rw [show chunkGo size ov (n + 1) s = [s] from by simp [chunkGo, h]] at hi
      simp at hi
    · rw [show chunkGo size ov (n + 1) s
            = s.take size :: chunkGo size ov n (s.drop (size - ov)) from by
          simp [chunkGo, h]] at hi hc
      cases i with
      | zero =>
        simp only [List.getElem?_cons_zero, Option.some.injEq] at hc
        subst hc
        simp [List.length_take]
        omega
      | succ j =>
        exact ih (s.drop (size - ov)) (by simp; omega) j c (by simpa using hi)
          (by simpa using hc)

/-- C1: for every non-empty input text and every valid configuration
(`chunk_size` positive, `0 ≤ chunk_overlap < chunk_size`), every chunk
produced by the chunker has length at most `chunk_size`. -/
theorem c1_chunk_length_le (size ov : Nat) (s : List Char)
    (hov : ov < size) (hs : s ≠ []) :
    ∀ c ∈ chunkText size ov s, c.length ≤ size := by
  intro c hc
  rw [chunkText_eq size ov s hs] at hc
  exact chunkGo_length_le size ov hov s.length s (Nat.le_refl _) c hc

/-- Witness for C1 at a concrete input: the 17-character example text with
`chunk_size = 8`, `chunk_overlap = 4`; its second chunk is bounded by 8. -/
theorem c1_witness :
    "efghijkl".toList ∈ chunkText 8 4 "abcdefghijklmnopq".toList ∧
    ("efghijkl".toList).length ≤ 8 :=
  ⟨by decide,
   c1_chunk_length_le 8 4 "abcdefghijklmnopq".toList (by decide) (by decide)
     "efghijkl".toList (by decide)⟩

/-- C3: for every input text and valid configuration, concatenating the
chunks in order with each chunk's leading `chunk_overlap` units removed
(for chunks after the first) reconstructs the original text exactly, and
every chunk is a contiguous substring of the original text. -/
theorem c3_reconstruct_substring (size ov : Nat) (s : List Char) (hov : ov < size) :
    reconstruct ov (chunkText size ov s) = s ∧
    ∀ c ∈ chunkText size ov s, c.IsInfix s := by
  rcases eq_or_ne s [] with rfl | hs
  · exact ⟨rfl, by intro c hc; simp [chunkText] at hc⟩
  · rw [chunkText_eq size ov s hs]
    refine ⟨?_, ?_⟩
    · exact chunkGo_reconstruct size ov hov s.length s (List.length_pos.mpr hs)
        (Nat.le_refl _)
    · intro c hc
      exact chunkGo_substring size ov s.length s c hc

/-- Witness for C3 at a concrete input: the 17-character example text with
`chunk_size = 8`, `chunk_overlap = 4` is reconstructed exactly. -/
theorem c3_witness :
    reconstruct 4 (chunkText 8 4 "abcdefghijklmnopq".toList)
      = "abcdefghijklmnopq".toList :=
  (c3_reconstruct_substring 8 4 "abcdefghijklmnopq".toList (by decide)).1

/-- C4: for every configuration with `chunk_overlap ≥ chunk_size`, the
chunker (and the propagator built on it) fails with `ConfigurationError`
immediately, before any processing; for `chunk_overlap < chunk_size` this
error is never raised. -/
theorem c4_configuration_error (size ov : Nat) (s : List Char) (docs : List Document) :
    (size ≤ ov →
      splitText size ov s = Except.error ChunkError.configurationError ∧
      createDocuments size ov docs = Except.error ChunkError.configurationError) ∧
    (ov < size →
      (∀ e, splitText size ov s ≠ Except.error e) ∧
      (∀ e, createDocuments size ov docs ≠ Except.error e)) := by
  constructor
  · intro h
    constructor <;> simp [splitText, createDocuments, h]
  · intro h
    have h2 : ¬ size ≤ ov := by omega
    constructor <;> intro e <;> simp [splitText, createDocuments, h2]

/-- Witness for C4 at the spec's concrete example: `chunk_overlap = 4,
chunk_size = 4` fails with `ConfigurationError`, while `chunk_size = 8,
chunk_overlap = 4` does not. -/
theorem c4_witness :
    splitText 4 4 "abcd".toList = Except.error ChunkError.configurationError ∧
    splitText 8 4 "abcd".toList ≠ Except.error ChunkError.configurationError :=
  ⟨((c4_configuration_error 4 4 "abcd".toList []).1 (by decide)).1,
   ((c4_configuration_error 8 4 "abcd".toList []).2 (by decide)).1
     ChunkError.configurationError⟩

/-- C5: for every valid configuration and input text, the chunk at index
`i` is the `chunk_size`-unit window of the text starting at offset
`i * (chunk_size - chunk_overlap)` — i.e. each chunk after the first
begins exactly `chunk_overlap` units before the previous chunk ends — and
every chunk except possibly the final one has length exactly `chunk_size`;
the spec's 17-character example with `chunk_size = 8`, `chunk_overlap = 4`
yields exactly the 4 chunks starting at offsets 0, 4, 8 and 12. -/
theorem c5_chunk_offsets (size ov : Nat) (s : List Char) (hov : ov < size) :
    (∀ i, i < (chunkText size ov s).length →
      (chunkText size ov s)[i]? = some ((s.drop (i * (size - ov))).take size)) ∧
    (∀ i c, i + 1 < (chunkText size ov s).length →
      (chunkText size ov s)[i]? = some c → c.length = size) ∧
    chunkText 8 4 "abcdefghijklmnopq".toList
      = ["abcdefgh".toList, "efghijkl".toList, "ijklmnop".toList, "mnopq".toList] := by
  refine ⟨?_, ?_, by decide⟩
  · intro i hi
    rcases eq_or_ne s [] with rfl | hs
    · simp [chunkText] at hi
    · rw [chunkText_eq size ov s hs] at hi ⊢
      exact chunkGo_getElem size ov hov s.length s (List.length_pos.mpr hs)
        (Nat.le_refl _) i hi
  · intro i c hi hc
    rcases eq_or_ne s [] with rfl | hs
    · simp [chunkText] at hi
    · rw [chunkText_eq size ov s hs] at hi hc
      exact chunkGo_full size ov hov s.length s (Nat.le_refl _) i c hi hc

/-- Witness for C5 at a concrete input: in the 17-character example the
chunk at index 1 is the 8-unit window at offset `1 * (8 - 4) = 4`. -/
theorem c5_witness :
    (chunkText 8 4 "abcdefghijklmnopq".toList)[1]?
      = some ((("abcdefghijklmnopq".toList).drop (1 * (8 - 4))).take 8) :=
  (c5_chunk_offsets 8 4 "abcdefghijklmnopq".toList (by decide)).1 1 (by decide)

/-- C6: a text of length at most `chunk_size` yields the single chunk
equal to the text; the empty text yields no chunks; hence every non-empty
document yields at least one passage and every empty document yields zero;
the spec's batch of three short documents yields exactly 3 passages in
input order with metadata unchanged (with the notebook's configuration
`chunk_size = 500`, `chunk_overlap = 0`). -/
theorem c6_edge_cases (size ov : Nat) (_hov : ov < size) :
    (∀ s : List Char, s ≠ [] → s.length ≤ size → chunkText size ov s = [s]) ∧
    chunkText size ov ([] : List Char) = [] ∧
    (∀ s : List Char, s ≠ [] → chunkText size ov s ≠ []) ∧
    createDocuments 500 0
        [{ content := "Doc one content".toList, metadata := [("name", "Doc1")] },
         { content := "Doc two content".toList, metadata := [("name", "Doc2")] },
         { content := "Doc three content".toList, metadata := [("name", "Doc3")] }]
      = Except.ok
        [{ text := "Doc one content".toList, metadata := [("name", "Doc1")] },
         { text := "Doc two content".toList, metadata := [("name", "Doc2")] },
         { text := "Doc three content".toList, metadata := [("name", "Doc3")] }] := by
  refine ⟨?_, rfl, ?_, rfl⟩
  · intro s hs hlen
    rw [chunkText_eq size ov s hs]
    obtain ⟨m, hm⟩ : ∃ m, s.length = m + 1 :=
      ⟨s.length - 1, by have := List.length_pos.mpr hs; omega⟩
    rw [hm]
    simp [chunkGo, hlen]
  · intro s hs
    obtain ⟨t, ht⟩ := chunkGo_cons size ov s.length s (List.length_pos.mpr hs)
      (Nat.le_refl _)
    rw [chunkText_eq size ov s hs, ht]
    simp

/-- Witness for C6 at a concrete input: a 2-character text with
`chunk_size = 8` yields a single chunk equal to the text. -/
theorem c6_witness : chunkText 8 4 "ab".toList = ["ab".toList] :=
  (c6_edge_cases 8 4 (by decide)).1 "ab".toList (by decide) (by decide)

/-- C7 counterexample: chunking "abc" with `chunk_size = 2`,
`chunk_overlap = 1` yields the partition ["ab", "bc"]; reconstructing the
text ("abc") and re-chunking it with the same `chunk_size` and
`chunk_overlap = 0` yields ["ab", "c"], which differs from the original
partition, so the claim as stated is false. -/
theorem c7_counterexample :
    chunkText 2 0 (reconstruct 1 (chunkText 2 1 "abc".toList))
      ≠ chunkText 2 1 "abc".toList := by
  decide

/-- C7 amended: when the original chunking itself uses no overlap,
re-chunking the reconstructed text with the same `chunk_size` and
`chunk_overlap = 0` reproduces the original partition. -/
theorem c7_rechunk_idempotent (size : Nat) (s : List Char) (h : 0 < size) :
    chunkText size 0 (reconstruct 0 (chunkText size 0 s)) = chunkText size 0 s := by
  have hrec : reconstruct 0 (chunkText size 0 s) = s := by
    rcases eq_or_ne s [] with rfl | hs
    · rfl
    · rw [chunkText_eq size 0 s hs]
      exact chunkGo_reconstruct size 0 h s.length s (List.length_pos.mpr hs)
        (Nat.le_refl _)
  rw [hrec]

/-- Witness for the amended C7 at a concrete input. -/
theorem c7_witness :
    chunkText 2 0 (reconstruct 0 (chunkText 2 0 "abc".toList))
      = chunkText 2 0 "abc".toList :=
  c7_rechunk_idempotent 2 "abc".toList (by decide)

/-- C2: for every document in the batch and every passage the propagator
derives from it, the passage's metadata equals the source document's
metadata exactly — every passage's metadata is the metadata of a single
document of the batch whose content chunks include the passage's text. -/
theorem c2_metadata_propagation (size ov : Nat) (docs : List Document)
    (ps : List Passage) (hov : ov < size)
    (hps : createDocuments size ov docs = Except.ok ps) :
    ∀ p ∈ ps, ∃ d ∈ docs,
      p.metadata = d.metadata ∧ p.text ∈ chunkText size ov d.content := by
  have h2 : ¬ size ≤ ov := by omega
  unfold createDocuments at hps
  rw [if_neg h2] at hps
  have hps2 : (docs.flatMap fun d =>
      (chunkText size ov d.content).map fun c =>
        { text := c, metadata := d.metadata : Passage }) = ps := by
    exact Except.ok.inj hps
  subst hps2
  intro p hp
  rw [List.mem_flatMap] at hp
  obtain ⟨d, hd, hp⟩ := hp
  rw [List.mem_map] at hp
  obtain ⟨c, hc, rfl⟩ := hp
  exact ⟨d, hd, rfl, hc⟩

/-- Witness for C2 at a concrete input: a single short document whose one
passage carries exactly its metadata. -/
theorem c2_witness :
    ∃ d ∈ [({ content := "hello".toList, metadata := [("name", "Doc1")] } : Document)],
      ({ text := "hello".toList, metadata := [("name", "Doc1")] } : Passage).metadata
          = d.metadata ∧
      ({ text := "hello".toList, metadata := [("name", "Doc1")] } : Passage).text
          ∈ chunkText 8 4 d.content :=
  c2_metadata_propagation 8 4
    [{ content := "hello".toList, metadata := [("name", "Doc1")] }]
    [{ text := "hello".toList, metadata := [("name", "Doc1")] }]
    (by decide) rfl
    { text := "hello".toList, metadata := [("name", "Doc1")] } (by decide)

/-- C8 counterexample: a batch whose middle document lacks the `content`
field makes the whole batch-building loop fail with a `KeyError`; the
malformed document is not skipped, no skipped count is reported, and the
remaining well-formed documents are not processed. -/
theorem c8_counterexample :
    buildBatch
        [{ fields := [("content", "good doc one"), ("name", "Doc1"), ("summary", "s1")] },
         { fields := [("name", "Doc2"), ("summary", "s2")] },
         { fields := [("content", "good doc three"), ("name", "Doc3"), ("summary", "s3")] }]
      = Except.error BatchError.keyError := by
  rfl

/-- C8 amended: a document missing its `content` field (or any accessed
field) aborts the whole batch-building loop with a `KeyError` instead of
being skipped; only a batch in which every document carries all accessed
fields is processed to completion. -/
theorem c8_malformed_batch_fails (ds : List RawDoc) :
    ((∃ d ∈ ds, getField d "content" = none) →
      buildBatch ds = Except.error BatchError.keyError) ∧
    ((∀ d ∈ ds, (getField d "content").isSome ∧ (getField d "name").isSome ∧
        (getField d "summary").isSome) →
      ∃ out, buildBatch ds = Except.ok out) := by
  induction ds with
  | nil =>
    constructor
    · rintro ⟨d, hd, _⟩; simp at hd
    · intro _; exact ⟨[], rfl⟩
  | cons d ds ih =>
    constructor
    · rintro ⟨e, he, hce⟩
      rcases List.mem_cons.mp he with rfl | he2
      · cases hn : getField e "name" <;> cases hsm : getField e "summary" <;>
          simp [buildBatch, hce, hn, hsm]
      · cases hc : getField d "content" with
        | none => simp [buildBatch, hc]
        | some c =>
          cases hn : getField d "name" with
          | none => simp [buildBatch, hc, hn]
          | some n =>
            cases hsm : getField d "summary" with
            | none => simp [buildBatch, hc, hn, hsm]
            | some sm =>
              have htail := ih.1 ⟨e, he2, hce⟩
              simp [buildBatch, hc, hn, hsm, htail]
    · intro hall
      obtain ⟨hc, hn, hsm⟩ := hall d (List.mem_cons_self d ds)
      obtain ⟨c, hc⟩ := Option.isSome_iff_exists.mp hc
      obtain ⟨n, hn⟩ := Option.isSome_iff_exists.mp hn
      obtain ⟨sm, hsm⟩ := Option.isSome_iff_exists.mp hsm
      obtain ⟨out, hout⟩ := ih.2 (fun e he => hall e (List.mem_cons_of_mem d he))
      exact ⟨{ content := c.toList, metadata := [("name", n), ("summary", sm)] } :: out,
        by simp [buildBatch, hc, hn, hsm, hout]⟩

/-- Witness for the amended C8 at a concrete input: a single document
missing `content` makes the whole batch fail. -/
theorem c8_witness :
    buildBatch [{ fields := [("name", "Doc2"), ("summary", "s2")] }]
      = Except.error BatchError.keyError :=
  (c8_malformed_batch_fails
    [{ fields := [("name", "Doc2"), ("summary", "s2")] }]).1
    ⟨{ fields := [("name", "Doc2"), ("summary", "s2")] }, by simp, by rfl⟩

/-- C9: the chunker and metadata propagator are deterministic — two runs
on identical input documents and identical configuration produce identical
passage sequences — and document order is preserved: the passages of a
concatenated batch are the concatenation of each part's passages, in
order. -/
theorem c9_deterministic_ordered (size ov : Nat) (docs docs2 : List Document)
    (hov : ov < size) :
    (docs = docs2 → createDocuments size ov docs = createDocuments size ov docs2) ∧
    (∀ ps ps2, createDocuments size ov docs = Except.ok ps →
      createDocuments size ov docs2 = Except.ok ps2 →
      createDocuments size ov (docs ++ docs2) = Except.ok (ps ++ ps2)) := by
  have h2 : ¬ size ≤ ov := by omega
  constructor
  · intro h; rw [h]
  · intro ps ps2 hp hp2
    unfold createDocuments at hp hp2 ⊢
    rw [if_neg h2] at hp hp2 ⊢
    have hp' := Except.ok.inj hp
    have hp2' := Except.ok.inj hp2
    subst hp'
    subst hp2'
    rw [List.flatMap_append]

/-- Witness for C9 at a concrete input: two runs on the same one-document
batch agree. -/
theorem c9_witness :
    createDocuments 8 4 [({ content := "hello".toList, metadata := [("name", "Doc1")] } : Document)]
      = createDocuments 8 4 [({ content := "hello".toList, metadata := [("name", "Doc1")] } : Document)] :=
  (c9_deterministic_ordered 8 4
    [{ content := "hello".toList, metadata := [("name", "Doc1")] }]
    [{ content := "hello".toList, metadata := [("name", "Doc1")] }]
    (by decide)).1 rfl

/-- C10: in the `Summary` component, the loader is rendered iff
`isLoading` is true and `text` is absent (undefined or empty), the text
block (with contents `t`) is rendered iff `text` is the non-empty string
`t`, and the loader and a text block are never rendered simultaneously. -/
theorem c10_summary_render (p : SummaryProps) :
    (SummaryNode.loader ∈ renderSummary p ↔
      p.isLoading = some true ∧ (p.text = none ∨ p.text = some "")) ∧
    (∀ t, SummaryNode.textBlock t ∈ renderSummary p ↔ p.text = some t ∧ t ≠ "") ∧
    ¬ (SummaryNode.loader ∈ renderSummary p ∧
        ∃ t, SummaryNode.textBlock t ∈ renderSummary p) := by
  rcases p with ⟨il, tx⟩
  rcases il with _ | b <;> rcases tx with _ | t
  · simp [renderSummary, truthyBool, truthyStr]
  · by_cases ht : t = "" <;> simp [renderSummary, truthyBool, truthyStr, ht] <;>
      exact fun t1 => ⟨by rintro rfl; exact ⟨rfl, ht⟩, by rintro ⟨rfl, -⟩; rfl⟩
  · cases b <;> simp [renderSummary, truthyBool, truthyStr]
  · cases b <;> by_cases ht : t = "" <;>
      simp [renderSummary, truthyBool, truthyStr, ht] <;>
      exact fun t1 => ⟨by rintro rfl; exact ⟨rfl, ht⟩, by rintro ⟨rfl, -⟩; rfl⟩
